import Mathlib

/-!
Verification of the eth-fabulous vanity-address searcher.

The development shallowly embeds the two source files of the repository:

* `src/account.rs` — the `Account` type: a private key (32 seed bytes),
  the derived public key (uncompressed secp256k1 serialization with the
  leading prefix byte stripped) and the derived address (Keccak-256 of the
  public key, keeping bytes 12..32), together with the lowercase
  `0x`-prefixed hexadecimal rendering of each field.
* `src/lib.rs` — `try_generate_wallet` (the per-worker generate/check/test
  loop over the shared atomic flag, atomic counter and mutex-guarded result
  slot) and `run` (compile the regex, spawn workers, join them, extract the
  result).

The elliptic-curve derivation (secp256k1), the Keccak-256 hash and the
regex engine are external crates; following the specification they are
treated as black boxes: the model is parameterized by a `Crypto` bundle
(serialization, hash, seed validity) and by a `compile` function for the
pattern matcher.  Concurrency in `try_generate_wallet`/`run` is embedded as
a small-step transition system: one transition per atomic access of the
Rust code (atomic load, `fetch_add`, `fetch_and`, the mutex-guarded store),
with worker-local work grouped between them.  Machine counters (`AtomicU64`)
are modelled as `Nat`; the claims under study concern the coordination
protocol, not 64-bit wraparound.
-/

namespace EthFabulous

/-- One lowercase hexadecimal digit, as produced by Rust's `{:02x}`
formatting: digits `0`-`9` then letters `a`-`f`. -/
def hexDigitChar (n : Nat) : Char :=
  if n < 10 then Char.ofNat (48 + n) else Char.ofNat (87 + n)

/-- The two-character lowercase hexadecimal rendering of one byte,
`format!("{:02x}", byte)` in `account.rs`. -/
def byteToHex (b : Nat) : String :=
  String.mk [hexDigitChar (b / 16), hexDigitChar (b % 16)]

/-- `byte_array_to_hex` of `account.rs`: map each byte through `{:02x}` and
concatenate (`collect::<String>()`). -/
def byte_array_to_hex (u8_vector : List Nat) : String :=
  String.mk (List.flatten ((u8_vector.map byteToHex).map String.data))

/-- `byte_array_to_hex_prefixed` of `account.rs`: prepend `0x`. -/
def byte_array_to_hex_prefixed (u8_vector : List Nat) : String :=
  "0x" ++ byte_array_to_hex u8_vector

/-- The external cryptographic collaborators of `account.rs`, black boxes
per the specification: `serializeUncompressed` is
`PublicKey::from_secret_key` followed by `serialize_uncompressed()` (65
bytes, a `0x04` prefix byte then 64 key bytes); `keccak` is the Keccak-256
digest (32 bytes); `validSeed` tells whether `SecretKey::from_slice`
accepts the seed bytes. -/
structure Crypto where
  serializeUncompressed : List Nat → List Nat
  keccak : List Nat → List Nat
  validSeed : List Nat → Bool

/-- The `Account` struct of `account.rs`. -/
structure Account where
  priv_key : List Nat
  pub_key : List Nat
  address : List Nat
deriving DecidableEq, Repr

/-- `Account::new` of `account.rs`: keep the seed bytes as the private key,
take the uncompressed public-key serialization with the leading prefix byte
stripped (`[1..]`), and keep bytes `12..` of the Keccak-256 hash of that
stripped public key as the address.  (`SecretKey::from_slice` is the
validity gate; its failure is a panic and is modelled in the worker
transition system, not here.) -/
def Account.new (C : Crypto) (priv_key_bytes : List Nat) : Account :=
  let pub_key := (C.serializeUncompressed priv_key_bytes).drop 1
  let address := (C.keccak pub_key).drop 12
  { priv_key := priv_key_bytes, pub_key := pub_key, address := address }

/-- `Account::priv_key_as_hex`. -/
def Account.priv_key_as_hex (a : Account) : String :=
  byte_array_to_hex_prefixed a.priv_key

/-- `Account::pub_key_as_hex`. -/
def Account.pub_key_as_hex (a : Account) : String :=
  byte_array_to_hex_prefixed a.pub_key

/-- `Account::address_as_hex`. -/
def Account.address_as_hex (a : Account) : String :=
  byte_array_to_hex_prefixed a.address

/-! ### Lemmas about the hexadecimal rendering -/

theorem length_byte_array_to_hex (l : List Nat) :
    (byte_array_to_hex l).length = 2 * l.length := by
  induction l with
  | nil => rfl
  | cons b t ih =>
      simp only [byte_array_to_hex, List.map_cons, List.flatten_cons, byteToHex,
        String.length, List.length_append, List.length_cons, List.length_nil] at ih ⊢
      omega

theorem length_byte_array_to_hex_prefixed (l : List Nat) :
    (byte_array_to_hex_prefixed l).length = 2 + 2 * l.length := by
  simp only [byte_array_to_hex_prefixed, String.length_append,
    length_byte_array_to_hex]
  rfl

/-- The sixteen lowercase hexadecimal characters. -/
def hexChars : List Char := "0123456789abcdef".data

/-- A string renders as `0x`-prefixed lowercase hexadecimal: it starts with
the characters `0`, `x`, and every later character is a lowercase hex
digit. -/
def IsLowerHexString (s : String) : Prop :=
  s.data.take 2 = ['0', 'x'] ∧ ∀ c ∈ s.data.drop 2, c ∈ hexChars

theorem hexDigitChar_mem_hexChars {n : Nat} (h : n < 16) :
    hexDigitChar n ∈ hexChars := by
  interval_cases n <;> decide

theorem data_byte_array_to_hex (l : List Nat) :
    (byte_array_to_hex l).data =
      List.flatten ((l.map byteToHex).map String.data) := rfl

theorem mem_byte_array_to_hex {l : List Nat} (hb : ∀ b ∈ l, b < 256)
    {c : Char} (hc : c ∈ (byte_array_to_hex l).data) : c ∈ hexChars := by
  rw [data_byte_array_to_hex] at hc
  rcases List.mem_flatten.mp hc with ⟨cs, hcs, hmem⟩
  rcases List.mem_map.mp hcs with ⟨s, hs, rfl⟩
  rcases List.mem_map.mp hs with ⟨b, hbl, rfl⟩
  have hblt : b < 256 := hb b hbl
  have hmem2 : c ∈ [hexDigitChar (b / 16), hexDigitChar (b % 16)] := hmem
  simp only [List.mem_cons, List.mem_singleton, List.not_mem_nil, or_false] at hmem2
  rcases hmem2 with h | h
  · rw [h]
    apply hexDigitChar_mem_hexChars
    omega
  · rw [h]
    apply hexDigitChar_mem_hexChars
    omega

theorem isLowerHex_prefixed {l : List Nat} (hb : ∀ b ∈ l, b < 256) :
    IsLowerHexString (byte_array_to_hex_prefixed l) := by
  constructor
  · rfl
  · intro c hc
    apply mem_byte_array_to_hex hb
    simpa [byte_array_to_hex_prefixed, String.data_append] using hc

/-! ### The worker loop of `lib.rs` as a small-step transition system

`try_generate_wallet` runs this loop (one transition per atomic access):

* `draw`      — `generator.fill_bytes(&mut pk_src)`;
* `check`     — `trying.load(Ordering::SeqCst)`; `false` exits the loop;
* `incr`      — `tries.fetch_add(1, Ordering::SeqCst)`;
* `construct` — `Account::new(&pk_src)`; panics when the seed is rejected
  by `SecretKey::from_slice`;
* `test`      — `regex.is_match(&address)`; on a match the worker stores
  the account in its local `result` and falls through to `clearFlag`,
  otherwise it loops back to `draw`;
* `clearFlag` — `trying.fetch_and(false, Ordering::SeqCst)`;
* `finish`    — back in the closure of `run`: `if let Some(result) = ...`
  stores the local result (when present) into the mutex-guarded slot;
* `done` / `panicked` — the thread has exited, normally or by panic.

The ghost fields `attempted`, `constructed`, `tested`, `wrote` count the
events of the corresponding worker and do not influence the dynamics. -/

/-- Program locations of one worker. -/
inductive WPC where
  | draw
  | check
  | incr
  | construct
  | test
  | clearFlag
  | finish
  | done
  | panicked
deriving DecidableEq, Repr

/-- Worker-local state: the program counter, the remaining entropy tape
(the successive 32-byte draws of its private `StdRng`), the bytes most
recently drawn into `pk_src`, the constructed `account`, and the local
`result` variable of `try_generate_wallet`, plus ghost event counters. -/
structure Worker where
  pc : WPC
  tape : List (List Nat)
  seed : List Nat
  acct : Option Account
  localResult : Option Account
  attempted : Nat
  constructed : Nat
  tested : Nat
  wrote : Bool
deriving DecidableEq, Repr

/-- The shared state of `run`: the `trying` atomic flag, the `tries` atomic
counter, the mutex-guarded `account` slot, and a ghost count of stores into
the slot. -/
structure Shared where
  trying : Bool
  tries : Nat
  slot : Option Account
  slotWrites : Nat
deriving DecidableEq, Repr

/-- One transition of a single worker, relating the shared state and that
worker's state before and after. -/
inductive WStep (C : Crypto) (isMatch : String → Bool) :
    Shared → Worker → Shared → Worker → Prop where
  | draw : ∀ sh w s rest, w.pc = WPC.draw → w.tape = s :: rest →
      WStep C isMatch sh w sh { w with pc := WPC.check, seed := s, tape := rest }
  | checkTrue : ∀ sh w, w.pc = WPC.check → sh.trying = true →
      WStep C isMatch sh w sh { w with pc := WPC.incr }
  | checkFalse : ∀ sh w, w.pc = WPC.check → sh.trying = false →
      WStep C isMatch sh w sh { w with pc := WPC.finish }
  | incr : ∀ sh w, w.pc = WPC.incr →
      WStep C isMatch sh w { sh with tries := sh.tries + 1 }
        { w with pc := WPC.construct, attempted := w.attempted + 1 }
  | constructOk : ∀ sh w, w.pc = WPC.construct → C.validSeed w.seed = true →
      WStep C isMatch sh w sh
        { w with
            pc := WPC.test
            acct := some (Account.new C w.seed)
            constructed := w.constructed + 1 }
  | constructPanic : ∀ sh w, w.pc = WPC.construct → C.validSeed w.seed = false →
      WStep C isMatch sh w sh { w with pc := WPC.panicked }
  | testMatch : ∀ sh w a, w.pc = WPC.test → w.acct = some a →
      isMatch a.address_as_hex = true →
      WStep C isMatch sh w sh
        { w with
            pc := WPC.clearFlag
            localResult := some a
            tested := w.tested + 1 }
  | testNoMatch : ∀ sh w a, w.pc = WPC.test → w.acct = some a →
      isMatch a.address_as_hex = false →
      WStep C isMatch sh w sh { w with pc := WPC.draw, tested := w.tested + 1 }
  | clearFlag : ∀ sh w, w.pc = WPC.clearFlag →
      WStep C isMatch sh w { sh with trying := false } { w with pc := WPC.finish }
  | finishSome : ∀ sh w a, w.pc = WPC.finish → w.localResult = some a →
      WStep C isMatch sh w
        { sh with slot := some a, slotWrites := sh.slotWrites + 1 }
        { w with pc := WPC.done, wrote := true }
  | finishNone : ∀ sh w, w.pc = WPC.finish → w.localResult = none →
      WStep C isMatch sh w sh { w with pc := WPC.done }

/-- The whole search state: shared state plus one `Worker` per spawned
thread, in spawn order. -/
structure SState where
  shared : Shared
  workers : List Worker
deriving DecidableEq, Repr

/-- One interleaving step: some worker takes one `WStep`. -/
inductive SStep (C : Crypto) (isMatch : String → Bool) :
    SState → SState → Prop where
  | mk : ∀ (s : SState) (i : Nat) (h : i < s.workers.length)
      (sh2 : Shared) (w2 : Worker),
      WStep C isMatch s.shared (s.workers.get ⟨i, h⟩) sh2 w2 →
      SStep C isMatch s { shared := sh2, workers := s.workers.set i w2 }

/-- All interleavings: the reflexive-transitive closure of `SStep`. -/
def Reachable (C : Crypto) (isMatch : String → Bool) :
    SState → SState → Prop :=
  Relation.ReflTransGen (SStep C isMatch)

/-- A freshly spawned worker with its entropy tape; mirrors the local
variables of `try_generate_wallet` at entry (`result = None`). -/
def initWorker (tape : List (List Nat)) : Worker :=
  { pc := WPC.draw, tape := tape, seed := [], acct := none,
    localResult := none, attempted := 0, constructed := 0, tested := 0,
    wrote := false }

/-- The shared state as `run` initializes it: `trying = true`, `tries = 0`,
empty slot. -/
def initShared : Shared :=
  { trying := true, tries := 0, slot := none, slotWrites := 0 }

/-- The state right after `run` spawned one worker per entropy tape. -/
def initState (tapes : List (List (List Nat))) : SState :=
  { shared := initShared, workers := tapes.map initWorker }

/-- Every worker thread has exited normally (all joins succeed). -/
def AllDone (s : SState) : Prop := ∀ w ∈ s.workers, w.pc = WPC.done

/-- The join loop of `run` reaches a panicked worker: some worker panicked
and all workers spawned before it have exited normally (their joins
returned before the failing `join().unwrap()`). -/
def JoinPanics (s : SState) : Prop :=
  ∃ (i : Nat) (h : i < s.workers.length),
    (s.workers.get ⟨i, h⟩).pc = WPC.panicked ∧
    ∀ (j : Nat) (hj : j < s.workers.length), j < i →
      (s.workers.get ⟨j, hj⟩).pc = WPC.done

/-- How one invocation of `run` can end: return `Ok`, return `Err`, or
panic.  (`run` in `lib.rs` has return type `Result<Account, String>`, so
an `Err` outcome is representable; the theorems show it never occurs.) -/
inductive RunResult where
  | ok (a : Account)
  | err (e : String)
  | panicked
deriving DecidableEq, Repr

/-- The possible behaviors of `run(search, cpus, verbosity)`: relates an
outcome and the number of workers spawned.  Faithful to `lib.rs`:

* `Regex::new(search).unwrap()` panics on a malformed pattern, before the
  spawn loop runs;
* otherwise one worker per tape is spawned and the system evolves by
  `SStep`; `worker.join().unwrap()` panics as soon as the join loop meets a
  panicked worker whose predecessors all exited normally;
* when every worker exited normally, `account.lock().unwrap().take().unwrap()`
  returns the slot contents wrapped in `Ok`, or panics when the slot is
  still empty.

`verbosity` only selects diagnostic printing in the source and does not
influence control flow, so it does not appear in the model. -/
inductive RunBehavior (C : Crypto)
    (compile : String → Except String (String → Bool))
    (search : String) (tapes : List (List (List Nat))) :
    RunResult → Nat → Prop where
  | compileFail : ∀ e, compile search = Except.error e →
      RunBehavior C compile search tapes RunResult.panicked 0
  | joinPanic : ∀ m s, compile search = Except.ok m →
      Reachable C m (initState tapes) s → JoinPanics s →
      RunBehavior C compile search tapes RunResult.panicked tapes.length
  | foundOk : ∀ m s a, compile search = Except.ok m →
      Reachable C m (initState tapes) s → AllDone s →
      s.shared.slot = some a →
      RunBehavior C compile search tapes (RunResult.ok a) tapes.length
  | emptyUnwrap : ∀ m s, compile search = Except.ok m →
      Reachable C m (initState tapes) s → AllDone s →
      s.shared.slot = none →
      RunBehavior C compile search tapes RunResult.panicked tapes.length

/-! ### List bookkeeping helpers -/

theorem sum_map_set {α : Type} (f : α → Nat) (x : α) :
    ∀ (l : List α) (i : Nat) (h : i < l.length),
      ((l.set i x).map f).sum + f (l.get ⟨i, h⟩) = (l.map f).sum + f x := by
  intro l
  induction l with
  | nil => intro i h; exact absurd h (Nat.not_lt_zero i)
  | cons a t ih =>
      intro i h
      cases i with
      | zero =>
          show (f x + (t.map f).sum) + f a = (f a + (t.map f).sum) + f x
          omega
      | succ n =>
          have hn : n < t.length := Nat.lt_of_succ_lt_succ h
          have h2 := ih n hn
          show (f a + ((t.set n x).map f).sum) + f (t.get ⟨n, hn⟩) =
            (f a + (t.map f).sum) + f x
          omega

theorem get_le_sum_map {α : Type} (f : α → Nat) :
    ∀ (l : List α) (i : Nat) (h : i < l.length),
      f (l.get ⟨i, h⟩) ≤ (l.map f).sum := by
  intro l
  induction l with
  | nil => intro i h; exact absurd h (Nat.not_lt_zero i)
  | cons a t ih =>
      intro i h
      cases i with
      | zero =>
          show f a ≤ f a + (t.map f).sum
          omega
      | succ n =>
          have hn : n < t.length := Nat.lt_of_succ_lt_succ h
          have h2 := ih n hn
          show f (t.get ⟨n, hn⟩) ≤ f a + (t.map f).sum
          omega

theorem mem_of_mem_set {α : Type} :
    ∀ (l : List α) (i : Nat) (x y : α), y ∈ l.set i x → y ∈ l ∨ y = x := by
  intro l
  induction l with
  | nil => intro i x y hy; cases i <;> cases hy
  | cons a t ih =>
      intro i x y hy
      cases i with
      | zero =>
          rcases List.mem_cons.mp hy with h | h
          · exact Or.inr h
          · exact Or.inl (List.mem_cons_of_mem a h)
      | succ n =>
          rcases List.mem_cons.mp hy with h | h
          · exact Or.inl (h ▸ List.mem_cons_self a t)
          · rcases ih n x y h with h2 | h2
            · exact Or.inl (List.mem_cons_of_mem a h2)
            · exact Or.inr h2

theorem get_set_same {α : Type} :
    ∀ (l : List α) (i : Nat) (x : α) (h : i < (l.set i x).length),
      (l.set i x).get ⟨i, h⟩ = x := by
  intro l
  induction l with
  | nil => intro i x h; cases i <;> exact absurd h (Nat.not_lt_zero _)
  | cons a t ih =>
      intro i x h
      cases i with
      | zero => rfl
      | succ n => exact ih n x (Nat.lt_of_succ_lt_succ h)

theorem get_set_other {α : Type} :
    ∀ (l : List α) (i j : Nat) (x : α), i ≠ j →
      ∀ (h : j < (l.set i x).length) (h2 : j < l.length),
      (l.set i x).get ⟨j, h⟩ = l.get ⟨j, h2⟩ := by
  intro l
  induction l with
  | nil => intro i j x hne h h2; exact absurd h2 (Nat.not_lt_zero _)
  | cons a t ih =>
      intro i j x hne h h2
      cases i with
      | zero =>
          cases j with
          | zero => exact absurd rfl hne
          | succ m => rfl
      | succ n =>
          cases j with
          | zero => rfl
          | succ m =>
              exact ih n m x (fun he => hne (congrArg Nat.succ he))
                (Nat.lt_of_succ_lt_succ h) (Nat.lt_of_succ_lt_succ h2)

/-! ### Invariants of the search system -/

/-- Ghost accounting: `1` when the worker is between its `fetch_add` and
the completion of `Account::new` (including the panic case), else `0`. -/
def pendingConstruct (p : WPC) : Nat :=
  match p with
  | WPC.construct => 1
  | WPC.panicked => 1
  | _ => 0

/-- Ghost accounting: `1` when the worker has constructed an account it has
not yet tested. -/
def pendingTest (p : WPC) : Nat :=
  match p with
  | WPC.test => 1
  | _ => 0

/-- The worker is still inside the `loop` of `try_generate_wallet`. -/
def inLoop (p : WPC) : Bool :=
  match p with
  | WPC.draw => true
  | WPC.check => true
  | WPC.incr => true
  | WPC.construct => true
  | WPC.test => true
  | _ => false

/-- Per-worker invariant: the local `result` only ever holds a matching
account; inside the loop the local result is still `None`; a worker holding
a local result has performed at least one attempt; the ghost counters tie
each `fetch_add` to the construction and test it pays for; only a finished
worker has written the slot. -/
def WInv (isMatch : String → Bool) (w : Worker) : Prop :=
  (∀ a, w.localResult = some a → isMatch a.address_as_hex = true)
  ∧ (inLoop w.pc = true → w.localResult = none)
  ∧ (w.localResult.isSome = true → 1 ≤ w.attempted)
  ∧ w.attempted = w.constructed + pendingConstruct w.pc
  ∧ w.constructed = w.tested + pendingTest w.pc
  ∧ (w.wrote = true → w.pc = WPC.done)

/-- Sum of per-worker attempt counts. -/
def attemptedSum (l : List Worker) : Nat := (l.map (fun w => w.attempted)).sum

/-- Sum of per-worker tested-candidate counts. -/
def testedSum (l : List Worker) : Nat := (l.map (fun w => w.tested)).sum

/-- Number of workers that have written the result slot. -/
def wroteSum (l : List Worker) : Nat :=
  (l.map (fun w => if w.wrote then 1 else 0)).sum

theorem attemptedSum_set (l : List Worker) (i : Nat) (h : i < l.length)
    (x : Worker) :
    attemptedSum (l.set i x) + (l.get ⟨i, h⟩).attempted =
      attemptedSum l + x.attempted :=
  sum_map_set (fun w => w.attempted) x l i h

theorem wroteSum_set (l : List Worker) (i : Nat) (h : i < l.length)
    (x : Worker) :
    wroteSum (l.set i x) + (if (l.get ⟨i, h⟩).wrote then 1 else 0) =
      wroteSum l + (if x.wrote then 1 else 0) :=
  sum_map_set (fun w => if w.wrote then 1 else 0) x l i h

theorem attempted_le_attemptedSum (l : List Worker) (i : Nat)
    (h : i < l.length) : (l.get ⟨i, h⟩).attempted ≤ attemptedSum l :=
  get_le_sum_map (fun w => w.attempted) l i h

theorem wroteSum_le_length : ∀ l : List Worker, wroteSum l ≤ l.length := by
  intro l
  induction l with
  | nil => exact Nat.le_refl 0
  | cons a t ih =>
      show (if a.wrote then 1 else 0) + wroteSum t ≤ t.length + 1
      cases a.wrote <;> simp <;> omega

/-- Once every worker is `done`, the attempt counter accounts exactly for
the tested candidates. -/
theorem attemptedSum_eq_testedSum_of_done {isMatch : String → Bool} :
    ∀ l : List Worker, (∀ w ∈ l, WInv isMatch w) →
      (∀ w ∈ l, w.pc = WPC.done) → attemptedSum l = testedSum l := by
  intro l
  induction l with
  | nil => intro _ _; rfl
  | cons a t ih =>
      intro hinv hdone
      have ha := hinv a (List.mem_cons_self a t)
      have hd := hdone a (List.mem_cons_self a t)
      obtain ⟨_, _, _, h4, h5, _⟩ := ha
      rw [hd] at h4 h5
      simp only [pendingConstruct, pendingTest] at h4 h5
      have ht := ih (fun w hw => hinv w (List.mem_cons_of_mem a hw))
        (fun w hw => hdone w (List.mem_cons_of_mem a hw))
      show a.attempted + attemptedSum t = a.tested + testedSum t
      omega

/-- The system invariant: everything ever stored in the slot matches the
pattern; `tries` equals the sum of the workers' attempts; the ghost write
count matches the workers' write flags; a non-empty slot needed at least
one attempt; and every worker satisfies its local invariant. -/
def SInv (isMatch : String → Bool) (s : SState) : Prop :=
  (∀ a, s.shared.slot = some a → isMatch a.address_as_hex = true)
  ∧ s.shared.tries = attemptedSum s.workers
  ∧ s.shared.slotWrites = wroteSum s.workers
  ∧ (s.shared.slot.isSome = true → 1 ≤ s.shared.tries)
  ∧ ∀ w ∈ s.workers, WInv isMatch w

theorem winv_step {C : Crypto} {isMatch : String → Bool}
    {sh : Shared} {w : Worker} {sh2 : Shared} {w2 : Worker}
    (hs : WStep C isMatch sh w sh2 w2) (hw : WInv isMatch w) :
    WInv isMatch w2 := by
  obtain ⟨h1, h2, h3, h4, h5, h6⟩ := hw
  cases hs <;>
    constructor <;>
      simp_all [WInv, pendingConstruct, pendingTest, inLoop] <;>
      omega

/-- A step changes `tries` by exactly the worker's `attempted` delta. -/
theorem wstep_tries {C : Crypto} {isMatch : String → Bool}
    {sh : Shared} {w : Worker} {sh2 : Shared} {w2 : Worker}
    (hs : WStep C isMatch sh w sh2 w2) :
    sh2.tries + w.attempted = sh.tries + w2.attempted := by
  cases hs <;> simp <;> omega

/-- `tries` never decreases. -/
theorem wstep_tries_mono {C : Crypto} {isMatch : String → Bool}
    {sh : Shared} {w : Worker} {sh2 : Shared} {w2 : Worker}
    (hs : WStep C isMatch sh w sh2 w2) : sh.tries ≤ sh2.tries := by
  cases hs <;> simp <;> omega

/-- A step changes the ghost write count by exactly the worker's `wrote`
delta, provided the worker had not already written unless finished. -/
theorem wstep_writes {C : Crypto} {isMatch : String → Bool}
    {sh : Shared} {w : Worker} {sh2 : Shared} {w2 : Worker}
    (hs : WStep C isMatch sh w sh2 w2)
    (h6 : w.wrote = true → w.pc = WPC.done) :
    sh2.slotWrites + (if w.wrote then 1 else 0) =
      sh.slotWrites + (if w2.wrote then 1 else 0) := by
  cases hs with
  | finishSome sh2a hpc hlr =>
      have hwf : w.wrote = false := by
        cases hwb : w.wrote
        · rfl
        · have hd := h6 hwb
          rw [hpc] at hd
          simp at hd
      simp [hwf]
  | draw sd rest hpc htape => rfl
  | checkTrue hpc htr => rfl
  | checkFalse hpc htr => rfl
  | incr hpc => rfl
  | constructOk hpc hv => rfl
  | constructPanic hpc hv => rfl
  | testMatch a hpc hacct hm => rfl
  | testNoMatch a hpc hacct hm => rfl
  | clearFlag hpc => rfl
  | finishNone hpc hlr => rfl

/-- Anything newly in the slot after a step came from the stepping worker's
local result. -/
theorem wstep_slot {C : Crypto} {isMatch : String → Bool}
    {sh : Shared} {w : Worker} {sh2 : Shared} {w2 : Worker}
    (hs : WStep C isMatch sh w sh2 w2) :
    ∀ a, sh2.slot = some a → sh.slot = some a ∨ w.localResult = some a := by
  cases hs with
  | finishSome a2 hpc hlr => exact fun a ha => Or.inr (hlr.trans ha)
  | draw sd rest hpc htape => exact fun a ha => Or.inl ha
  | checkTrue hpc htr => exact fun a ha => Or.inl ha
  | checkFalse hpc htr => exact fun a ha => Or.inl ha
  | incr hpc => exact fun a ha => Or.inl ha
  | constructOk hpc hv => exact fun a ha => Or.inl ha
  | constructPanic hpc hv => exact fun a ha => Or.inl ha
  | testMatch a2 hpc hacct hm => exact fun a ha => Or.inl ha
  | testNoMatch a2 hpc hacct hm => exact fun a ha => Or.inl ha
  | clearFlag hpc => exact fun a ha => Or.inl ha
  | finishNone hpc hlr => exact fun a ha => Or.inl ha

/-- The system invariant is preserved by every interleaving step. -/
theorem sinv_step {C : Crypto} {isMatch : String → Bool} {s s2 : SState}
    (hstep : SStep C isMatch s s2) (hinv : SInv isMatch s) :
    SInv isMatch s2 := by
  obtain ⟨hslot, htries, hwrites, hpos, hall⟩ := hinv
  cases hstep with
  | mk i h sh2 w2 hw =>
      have hwmem : s.workers.get ⟨i, h⟩ ∈ s.workers := List.get_mem _ _ _
      have hwinv : WInv isMatch (s.workers.get ⟨i, h⟩) := hall _ hwmem
      have hwinv2 : WInv isMatch w2 := winv_step hw hwinv
      have hA := attemptedSum_set s.workers i h w2
      have hWr := wroteSum_set s.workers i h w2
      have htriesd := wstep_tries hw
      have hwritesd := wstep_writes hw hwinv.2.2.2.2.2
      have hslotd := wstep_slot hw
      have hmono := wstep_tries_mono hw
      refine ⟨?_, ?_, ?_, ?_, ?_⟩
      · intro a ha
        rcases hslotd a ha with h2 | h2
        · exact hslot a h2
        · exact hwinv.1 a h2
      · show sh2.tries = attemptedSum (s.workers.set i w2)
        omega
      · show sh2.slotWrites = wroteSum (s.workers.set i w2)
        omega
      · intro hsome
        show 1 ≤ sh2.tries
        rcases Option.isSome_iff_exists.mp hsome with ⟨a, ha⟩
        rcases hslotd a ha with h2 | h2
        · have h3 := hpos (by rw [h2]; rfl)
          omega
        · have h3 := hwinv.2.2.1 (by rw [h2]; rfl)
          have h4 := attempted_le_attemptedSum s.workers i h
          omega
      · intro w hwm
        rcases mem_of_mem_set _ _ _ _ hwm with h2 | h2
        · exact hall w h2
        · rw [h2]; exact hwinv2

/-- Each freshly spawned worker satisfies the worker invariant. -/
theorem winv_init (isMatch : String → Bool) (tape : List (List Nat)) :
    WInv isMatch (initWorker tape) := by
  refine ⟨?_, ?_, ?_, ?_, ?_, ?_⟩ <;>
    simp [initWorker, pendingConstruct, pendingTest, inLoop]

theorem sum_map_initWorker_zero (f : Worker → Nat)
    (h0 : ∀ t, f (initWorker t) = 0) :
    ∀ tapes : List (List (List Nat)),
      ((tapes.map initWorker).map f).sum = 0 := by
  intro tapes
  induction tapes with
  | nil => rfl
  | cons t ts ih =>
      show f (initWorker t) + ((ts.map initWorker).map f).sum = 0
      rw [h0 t, ih]

/-- The state `run` hands to its workers satisfies the system invariant. -/
theorem sinv_init (isMatch : String → Bool)
    (tapes : List (List (List Nat))) : SInv isMatch (initState tapes) := by
  refine ⟨?_, ?_, ?_, ?_, ?_⟩
  · intro a ha; cases ha
  · exact (sum_map_initWorker_zero _ (fun t => rfl) tapes).symm
  · exact (sum_map_initWorker_zero _ (fun t => rfl) tapes).symm
  · intro hsome; cases hsome
  · intro w hwm
    rcases List.mem_map.mp hwm with ⟨t, ht, rfl⟩
    exact winv_init isMatch t

/-- The system invariant holds in every reachable state. -/
theorem sinv_reachable {C : Crypto} {isMatch : String → Bool}
    {s s2 : SState} (hr : Reachable C isMatch s s2)
    (h0 : SInv isMatch s) : SInv isMatch s2 := by
  induction hr with
  | refl => exact h0
  | tail hr2 hstep ih => exact sinv_step hstep ih

/-- Steps never change the number of workers. -/
theorem length_reachable {C : Crypto} {isMatch : String → Bool}
    {s s2 : SState} (hr : Reachable C isMatch s s2) :
    s2.workers.length = s.workers.length := by
  induction hr with
  | refl => rfl
  | tail hr2 hstep ih =>
      cases hstep with
      | mk i h sh2 w2 hw =>
          simp only [List.length_set]
          exact ih

/-! ### Concrete instances for witnesses and counterexamples

The cryptographic collaborators and the regex engine are black boxes, so
witnesses instantiate them with small executable stand-ins that satisfy the
documented interface facts used by the theorems (65-byte uncompressed
serialization, 32-byte digest, rejection of the all-zero seed). -/

/-- A concrete matcher: accepts exactly the 42-character strings (every
well-formed address rendering). -/
def demoMatcher : String → Bool := fun s => decide (s.length = 42)

/-- A concrete pattern compiler: rejects the malformed pattern `[` the way
`Regex::new` does, accepts everything else as `demoMatcher`. -/
def demoCompile : String → Except String (String → Bool) := fun p =>
  if p = "[" then Except.error "regex parse error: unclosed character class"
  else Except.ok demoMatcher

/-- The all-zero seed, rejected by `SecretKey::from_slice`. -/
def zeroSeed : List Nat := List.replicate 32 0

def seedA : List Nat := List.replicate 31 0 ++ [1]

def seedB : List Nat := List.replicate 31 0 ++ [2]

/-- Concrete crypto stand-in: serialization is a `4` prefix byte, the seed,
then 32 filler bytes (65 bytes total); the digest keeps the first 32 bytes
of the padded input; the all-zero seed is invalid. -/
def demoCrypto : Crypto :=
  { serializeUncompressed := fun s => 4 :: (s ++ List.replicate 32 7)
    keccak := fun l => (l ++ List.replicate 32 9).take 32
    validSeed := fun s => decide (s ≠ List.replicate 32 0) }

def acctA : Account := Account.new demoCrypto seedA

def acctB : Account := Account.new demoCrypto seedB

/-! #### A complete one-worker run that finds `acctA` (used for C1/C6) -/

def c1w0 : Worker := initWorker [seedA]
def c1w1 : Worker := { c1w0 with pc := WPC.check, seed := seedA, tape := [] }
def c1w2 : Worker := { c1w1 with pc := WPC.incr }
def c1w3 : Worker := { c1w2 with pc := WPC.construct, attempted := 1 }
def c1w4 : Worker :=
  { c1w3 with pc := WPC.test, acct := some acctA, constructed := 1 }
def c1w5 : Worker :=
  { c1w4 with pc := WPC.clearFlag, localResult := some acctA, tested := 1 }
def c1w6 : Worker := { c1w5 with pc := WPC.finish }
def c1w7 : Worker := { c1w6 with pc := WPC.done, wrote := true }

def c1sh3 : Shared := { initShared with tries := 1 }
def c1sh6 : Shared := { c1sh3 with trying := false }
def c1sh7 : Shared := { c1sh6 with slot := some acctA, slotWrites := 1 }

def c1s0 : SState := initState [[seedA]]
def c1s1 : SState := ⟨initShared, [c1w1]⟩
def c1s2 : SState := ⟨initShared, [c1w2]⟩
def c1s3 : SState := ⟨c1sh3, [c1w3]⟩
def c1s4 : SState := ⟨c1sh3, [c1w4]⟩
def c1s5 : SState := ⟨c1sh3, [c1w5]⟩
def c1s6 : SState := ⟨c1sh6, [c1w6]⟩
def c1s7 : SState := ⟨c1sh7, [c1w7]⟩

theorem c1step1 : SStep demoCrypto demoMatcher c1s0 c1s1 :=
  SStep.mk c1s0 0 (by decide) initShared c1w1 (WStep.draw _ _ _ _ rfl rfl)

theorem c1step2 : SStep demoCrypto demoMatcher c1s1 c1s2 :=
  SStep.mk c1s1 0 (by decide) initShared c1w2 (WStep.checkTrue _ _ rfl rfl)

theorem c1step3 : SStep demoCrypto demoMatcher c1s2 c1s3 :=
  SStep.mk c1s2 0 (by decide) c1sh3 c1w3 (WStep.incr _ _ rfl)

theorem c1step4 : SStep demoCrypto demoMatcher c1s3 c1s4 :=
  SStep.mk c1s3 0 (by decide) c1sh3 c1w4
    (WStep.constructOk _ _ rfl (by decide))

theorem c1step5 : SStep demoCrypto demoMatcher c1s4 c1s5 :=
  SStep.mk c1s4 0 (by decide) c1sh3 c1w5
    (WStep.testMatch _ _ acctA rfl rfl (by decide))

theorem c1step6 : SStep demoCrypto demoMatcher c1s5 c1s6 :=
  SStep.mk c1s5 0 (by decide) c1sh6 c1w6 (WStep.clearFlag _ _ rfl)

theorem c1step7 : SStep demoCrypto demoMatcher c1s6 c1s7 :=
  SStep.mk c1s6 0 (by decide) c1sh7 c1w7
    (WStep.finishSome _ _ acctA rfl rfl)

theorem c1reach : Reachable demoCrypto demoMatcher c1s0 c1s7 :=
  ((((((Relation.ReflTransGen.refl.tail c1step1).tail c1step2).tail
    c1step3).tail c1step4).tail c1step5).tail c1step6).tail c1step7

theorem c1alldone : AllDone c1s7 := by
  intro w hw
  rcases List.mem_singleton.mp hw with rfl
  rfl

/-- The one-worker run can end with `Ok acctA`. -/
theorem c1behavior : RunBehavior demoCrypto demoCompile "x" [[seedA]]
    (RunResult.ok acctA) 1 :=
  RunBehavior.foundOk demoMatcher c1s7 acctA rfl c1reach c1alldone rfl

/-! #### A two-worker run in which both workers match concurrently

Both workers pass the `trying` check before either clears the flag, so
both store their account: the slot is written twice and the first stored
account is overwritten (used for C2 and C5). -/

def c2b0 : Worker := initWorker [seedB]
def c2b1 : Worker := { c2b0 with pc := WPC.check, seed := seedB, tape := [] }
def c2b2 : Worker := { c2b1 with pc := WPC.incr }
def c2b3 : Worker := { c2b2 with pc := WPC.construct, attempted := 1 }
def c2b4 : Worker :=
  { c2b3 with pc := WPC.test, acct := some acctB, constructed := 1 }
def c2b5 : Worker :=
  { c2b4 with pc := WPC.clearFlag, localResult := some acctB, tested := 1 }
def c2b6 : Worker := { c2b5 with pc := WPC.finish }
def c2b7 : Worker := { c2b6 with pc := WPC.done, wrote := true }

def c2sh2 : Shared := { initShared with tries := 2 }
def c2sh2f : Shared := { c2sh2 with trying := false }
def c2shW1 : Shared := { c2sh2f with slot := some acctA, slotWrites := 1 }
def c2shW2 : Shared := { c2sh2f with slot := some acctB, slotWrites := 2 }

def c2s0 : SState := initState [[seedA], [seedB]]
def c2s1 : SState := ⟨initShared, [c1w1, c2b0]⟩
def c2s2 : SState := ⟨initShared, [c1w1, c2b1]⟩
def c2s3 : SState := ⟨initShared, [c1w2, c2b1]⟩
def c2s4 : SState := ⟨initShared, [c1w2, c2b2]⟩
def c2s5 : SState := ⟨c1sh3, [c1w3, c2b2]⟩
def c2s6 : SState := ⟨c2sh2, [c1w3, c2b3]⟩
def c2s7 : SState := ⟨c2sh2, [c1w4, c2b3]⟩
def c2s8 : SState := ⟨c2sh2, [c1w4, c2b4]⟩
def c2s9 : SState := ⟨c2sh2, [c1w5, c2b4]⟩
def c2s10 : SState := ⟨c2sh2, [c1w5, c2b5]⟩
def c2s11 : SState := ⟨c2sh2f, [c1w6, c2b5]⟩
def c2s12 : SState := ⟨c2sh2f, [c1w6, c2b6]⟩
def c2s13 : SState := ⟨c2shW1, [c1w7, c2b6]⟩
def c2s14 : SState := ⟨c2shW2, [c1w7, c2b7]⟩

theorem c2step1 : SStep demoCrypto demoMatcher c2s0 c2s1 :=
  SStep.mk c2s0 0 (by decide) initShared c1w1 (WStep.draw _ _ _ _ rfl rfl)

theorem c2step2 : SStep demoCrypto demoMatcher c2s1 c2s2 :=
  SStep.mk c2s1 1 (by decide) initShared c2b1 (WStep.draw _ _ _ _ rfl rfl)

theorem c2step3 : SStep demoCrypto demoMatcher c2s2 c2s3 :=
  SStep.mk c2s2 0 (by decide) initShared c1w2 (WStep.checkTrue _ _ rfl rfl)

theorem c2step4 : SStep demoCrypto demoMatcher c2s3 c2s4 :=
  SStep.mk c2s3 1 (by decide) initShared c2b2 (WStep.checkTrue _ _ rfl rfl)

theorem c2step5 : SStep demoCrypto demoMatcher c2s4 c2s5 :=
  SStep.mk c2s4 0 (by decide) c1sh3 c1w3 (WStep.incr _ _ rfl)

theorem c2step6 : SStep demoCrypto demoMatcher c2s5 c2s6 :=
  SStep.mk c2s5 1 (by decide) c2sh2 c2b3 (WStep.incr _ _ rfl)

theorem c2step7 : SStep demoCrypto demoMatcher c2s6 c2s7 :=
  SStep.mk c2s6 0 (by decide) c2sh2 c1w4
    (WStep.constructOk _ _ rfl (by decide))

theorem c2step8 : SStep demoCrypto demoMatcher c2s7 c2s8 :=
  SStep.mk c2s7 1 (by decide) c2sh2 c2b4
    (WStep.constructOk _ _ rfl (by decide))

theorem c2step9 : SStep demoCrypto demoMatcher c2s8 c2s9 :=
  SStep.mk c2s8 0 (by decide) c2sh2 c1w5
    (WStep.testMatch _ _ acctA rfl rfl (by decide))

theorem c2step10 : SStep demoCrypto demoMatcher c2s9 c2s10 :=
  SStep.mk c2s9 1 (by decide) c2sh2 c2b5
    (WStep.testMatch _ _ acctB rfl rfl (by decide))

theorem c2step11 : SStep demoCrypto demoMatcher c2s10 c2s11 :=
  SStep.mk c2s10 0 (by decide) c2sh2f c1w6 (WStep.clearFlag _ _ rfl)

theorem c2step12 : SStep demoCrypto demoMatcher c2s11 c2s12 :=
  SStep.mk c2s11 1 (by decide) c2sh2f c2b6 (WStep.clearFlag _ _ rfl)

theorem c2step13 : SStep demoCrypto demoMatcher c2s12 c2s13 :=
  SStep.mk c2s12 0 (by decide) c2shW1 c1w7
    (WStep.finishSome _ _ acctA rfl rfl)

theorem c2step14 : SStep demoCrypto demoMatcher c2s13 c2s14 :=
  SStep.mk c2s13 1 (by decide) c2shW2 c2b7
    (WStep.finishSome _ _ acctB rfl rfl)

theorem c2reach13 : Reachable demoCrypto demoMatcher c2s0 c2s13 :=
  ((((((((((((Relation.ReflTransGen.refl.tail c2step1).tail c2step2).tail
    c2step3).tail c2step4).tail c2step5).tail c2step6).tail c2step7).tail
    c2step8).tail c2step9).tail c2step10).tail c2step11).tail
    c2step12).tail c2step13

theorem c2reach14 : Reachable demoCrypto demoMatcher c2s0 c2s14 :=
  c2reach13.tail c2step14

/-! #### A two-worker run in which the second worker observes the cleared
flag (used for C5): worker 0 matches and clears `trying`; worker 1 is
parked at its per-iteration check. -/

def c5s1 : SState := ⟨initShared, [c1w0, c2b1]⟩
def c5s2 : SState := ⟨initShared, [c1w1, c2b1]⟩
def c5s3 : SState := ⟨initShared, [c1w2, c2b1]⟩
def c5s4 : SState := ⟨c1sh3, [c1w3, c2b1]⟩
def c5s5 : SState := ⟨c1sh3, [c1w4, c2b1]⟩
def c5s6 : SState := ⟨c1sh3, [c1w5, c2b1]⟩
def c5s7 : SState := ⟨c1sh6, [c1w6, c2b1]⟩

theorem c5step1 : SStep demoCrypto demoMatcher c2s0 c5s1 :=
  SStep.mk c2s0 1 (by decide) initShared c2b1 (WStep.draw _ _ _ _ rfl rfl)

theorem c5step2 : SStep demoCrypto demoMatcher c5s1 c5s2 :=
  SStep.mk c5s1 0 (by decide) initShared c1w1 (WStep.draw _ _ _ _ rfl rfl)

theorem c5step3 : SStep demoCrypto demoMatcher c5s2 c5s3 :=
  SStep.mk c5s2 0 (by decide) initShared c1w2 (WStep.checkTrue _ _ rfl rfl)

theorem c5step4 : SStep demoCrypto demoMatcher c5s3 c5s4 :=
  SStep.mk c5s3 0 (by decide) c1sh3 c1w3 (WStep.incr _ _ rfl)

theorem c5step5 : SStep demoCrypto demoMatcher c5s4 c5s5 :=
  SStep.mk c5s4 0 (by decide) c1sh3 c1w4
    (WStep.constructOk _ _ rfl (by decide))

theorem c5step6 : SStep demoCrypto demoMatcher c5s5 c5s6 :=
  SStep.mk c5s5 0 (by decide) c1sh3 c1w5
    (WStep.testMatch _ _ acctA rfl rfl (by decide))

theorem c5step7 : SStep demoCrypto demoMatcher c5s6 c5s7 :=
  SStep.mk c5s6 0 (by decide) c1sh6 c1w6 (WStep.clearFlag _ _ rfl)

theorem c5reach : Reachable demoCrypto demoMatcher c2s0 c5s7 :=
  ((((((Relation.ReflTransGen.refl.tail c5step1).tail c5step2).tail
    c5step3).tail c5step4).tail c5step5).tail c5step6).tail c5step7

/-- Worker 1 still at `check`, flag now `false`: the exit step of its loop. -/
def c5b2 : Worker := { c2b1 with pc := WPC.finish }

/-- Worker 1 after the empty-handed `finish` step. -/
def c5b3 : Worker := { c5b2 with pc := WPC.done }

theorem c5stepA : WStep demoCrypto demoMatcher c1sh6 c2b1 c1sh6 c5b2 :=
  WStep.checkFalse _ _ rfl rfl

theorem c5stepB : WStep demoCrypto demoMatcher c1sh6 c5b2 c1sh6 c5b3 :=
  WStep.finishNone _ _ rfl rfl

/-! #### A one-worker run whose only seed is invalid: the worker panics
inside `Account::new` (used for C4). -/

def c4w1 : Worker := { initWorker [zeroSeed] with
  pc := WPC.check
  seed := zeroSeed
  tape := [] }
def c4w2 : Worker := { c4w1 with pc := WPC.incr }
def c4w3 : Worker := { c4w2 with pc := WPC.construct, attempted := 1 }
def c4w4 : Worker := { c4w3 with pc := WPC.panicked }

def c4s0 : SState := initState [[zeroSeed]]
def c4s1 : SState := ⟨initShared, [c4w1]⟩
def c4s2 : SState := ⟨initShared, [c4w2]⟩
def c4s3 : SState := ⟨c1sh3, [c4w3]⟩
def c4s4 : SState := ⟨c1sh3, [c4w4]⟩

theorem c4step1 : SStep demoCrypto demoMatcher c4s0 c4s1 :=
  SStep.mk c4s0 0 (by decide) initShared c4w1 (WStep.draw _ _ _ _ rfl rfl)

theorem c4step2 : SStep demoCrypto demoMatcher c4s1 c4s2 :=
  SStep.mk c4s1 0 (by decide) initShared c4w2 (WStep.checkTrue _ _ rfl rfl)

theorem c4step3 : SStep demoCrypto demoMatcher c4s2 c4s3 :=
  SStep.mk c4s2 0 (by decide) c1sh3 c4w3 (WStep.incr _ _ rfl)

theorem c4step4 : SStep demoCrypto demoMatcher c4s3 c4s4 :=
  SStep.mk c4s3 0 (by decide) c1sh3 c4w4
    (WStep.constructPanic _ _ rfl (by decide))

theorem c4reach : Reachable demoCrypto demoMatcher c4s0 c4s4 :=
  (((Relation.ReflTransGen.refl.tail c4step1).tail c4step2).tail
    c4step3).tail c4step4

theorem c4lt : 0 < c4s4.workers.length := by decide

theorem c4joins : JoinPanics c4s4 :=
  ⟨0, c4lt, rfl, fun j hj hlt => absurd hlt (Nat.not_lt_zero j)⟩

/-! ### A panicked worker is stuck -/

/-- After any interleaving step, a panicked worker is still panicked with
its attempt count frozen (no transition applies to it). -/
theorem panicked_step {C : Crypto} {isMatch : String → Bool}
    {s s2 : SState} (hstep : SStep C isMatch s s2) (i : Nat)
    (h : i < s.workers.length)
    (hp : (s.workers.get ⟨i, h⟩).pc = WPC.panicked) :
    ∃ h2 : i < s2.workers.length,
      (s2.workers.get ⟨i, h2⟩).pc = WPC.panicked
      ∧ (s2.workers.get ⟨i, h2⟩).attempted =
          (s.workers.get ⟨i, h⟩).attempted := by
  cases hstep with
  | mk j hj sh2 w2 hw =>
      by_cases hij : j = i
      · exfalso
        subst hij
        have hpj : (s.workers.get ⟨j, hj⟩).pc = WPC.panicked := hp
        cases hw <;> simp_all
      · have h2 : i < (s.workers.set j w2).length := by
          rw [List.length_set]; exact h
        refine ⟨h2, ?_, ?_⟩
        · show ((s.workers.set j w2).get ⟨i, h2⟩).pc = WPC.panicked
          rw [get_set_other s.workers j i w2 hij h2 h]
          exact hp
        · show ((s.workers.set j w2).get ⟨i, h2⟩).attempted =
            (s.workers.get ⟨i, h⟩).attempted
          rw [get_set_other s.workers j i w2 hij h2 h]

/-- Along any reachable suffix, a panicked worker stays panicked with its
attempt count frozen. -/
theorem panicked_reach {C : Crypto} {isMatch : String → Bool}
    {s s2 : SState} (hr : Reachable C isMatch s s2) :
    ∀ (i : Nat) (h : i < s.workers.length),
      (s.workers.get ⟨i, h⟩).pc = WPC.panicked →
      ∃ h2 : i < s2.workers.length,
        (s2.workers.get ⟨i, h2⟩).pc = WPC.panicked
        ∧ (s2.workers.get ⟨i, h2⟩).attempted =
            (s.workers.get ⟨i, h⟩).attempted := by
  induction hr with
  | refl => exact fun i h hp => ⟨h, hp, rfl⟩
  | tail hr2 hstep ih =>
      intro i h hp
      obtain ⟨h2, hp2, hat2⟩ := ih i h hp
      obtain ⟨h3, hp3, hat3⟩ := panicked_step hstep i h2 hp2
      exact ⟨h3, hp3, hat3.trans hat2⟩

/-! ### The claims -/

/-- C1: for every pattern that compiles to a valid matcher and every worker
count of at least 1, if `run` returns successfully then it returns `Ok` of
an account whose `address_as_hex` satisfies the compiled pattern. -/
theorem run_ok_matches (C : Crypto)
    (compile : String → Except String (String → Bool)) (search : String)
    (tapes : List (List (List Nat))) (m : String → Bool) (a : Account)
    (n : Nat) (hW : 1 ≤ tapes.length) (hcomp : compile search = Except.ok m)
    (hrun : RunBehavior C compile search tapes (RunResult.ok a) n) :
    m a.address_as_hex = true := by
  cases hrun with
  | foundOk m2 s a2 hc hr hd hs =>
      rw [hcomp] at hc
      injection hc with hm
      subst hm
      have hinv := sinv_reachable hr (sinv_init m tapes)
      exact hinv.1 a hs

/-- Witness for C1: the concrete one-worker run that returns `Ok acctA`. -/
theorem run_ok_matches_witness :
    1 ≤ ([[seedA]] : List (List (List Nat))).length
    ∧ demoCompile "x" = Except.ok demoMatcher
    ∧ demoMatcher acctA.address_as_hex = true :=
  ⟨by decide, rfl,
    run_ok_matches demoCrypto demoCompile "x" [[seedA]] demoMatcher acctA 1
      (by decide) rfl c1behavior⟩

/-- C2 (amended): every account ever stored in the shared result slot was a
match found by some worker (so the final extracted account always satisfies
the pattern), each worker stores at most once, and the total number of
stores is at most the worker count — but two workers that match
concurrently may both store, the later overwriting the earlier. -/
theorem result_slot_matches (C : Crypto) (isMatch : String → Bool)
    (tapes : List (List (List Nat))) (s : SState)
    (hr : Reachable C isMatch (initState tapes) s) :
    (∀ a, s.shared.slot = some a → isMatch a.address_as_hex = true)
    ∧ s.shared.slotWrites = wroteSum s.workers
    ∧ s.shared.slotWrites ≤ tapes.length := by
  have hinv := sinv_reachable hr (sinv_init isMatch tapes)
  refine ⟨hinv.1, hinv.2.2.1, ?_⟩
  rw [hinv.2.2.1]
  have h1 := wroteSum_le_length s.workers
  have h2 := length_reachable hr
  have h3 : (initState tapes).workers.length = tapes.length := by
    simp [initState]
  omega

/-- Counterexample for C2 as stated: in the two-worker interleaving where
both workers match before either clears the flag, the slot is written
twice and the first stored account is overwritten by a different one. -/
theorem double_write_cex :
    Reachable demoCrypto demoMatcher (initState [[seedA], [seedB]]) c2s13
    ∧ c2s13.shared.slot = some acctA
    ∧ c2s13.shared.slotWrites = 1
    ∧ Reachable demoCrypto demoMatcher c2s13 c2s14
    ∧ c2s14.shared.slot = some acctB
    ∧ c2s14.shared.slotWrites = 2
    ∧ acctA ≠ acctB :=
  ⟨c2reach13, rfl, rfl, Relation.ReflTransGen.single c2step14, rfl, rfl,
    by decide⟩

/-- Witness for C2's amended statement at the double-write final state. -/
theorem result_slot_matches_witness :
    (∀ a, c2s14.shared.slot = some a → demoMatcher a.address_as_hex = true)
    ∧ c2s14.shared.slotWrites = wroteSum c2s14.workers
    ∧ c2s14.shared.slotWrites ≤
        ([[seedA], [seedB]] : List (List (List Nat))).length :=
  result_slot_matches demoCrypto demoMatcher [[seedA], [seedB]] c2s14
    c2reach14

/-- C3 (amended): a pattern that fails to compile makes `run` panic (the
`unwrap` of the compile error) before any worker is spawned — zero workers
are spawned, and no value, in particular no error value, is returned. -/
theorem run_invalid_pattern (C : Crypto)
    (compile : String → Except String (String → Bool)) (search : String)
    (tapes : List (List (List Nat))) (e : String)
    (hc : compile search = Except.error e) :
    RunBehavior C compile search tapes RunResult.panicked 0
    ∧ ∀ (r : RunResult) (n : Nat),
        RunBehavior C compile search tapes r n →
        r = RunResult.panicked ∧ n = 0 := by
  refine ⟨RunBehavior.compileFail e hc, ?_⟩
  intro r n hb
  cases hb with
  | compileFail e2 hc2 => exact ⟨rfl, rfl⟩
  | joinPanic m s hc2 hr hj => rw [hc] at hc2; cases hc2
  | foundOk m s a hc2 hr hd hs => rw [hc] at hc2; cases hc2
  | emptyUnwrap m s hc2 hr hd hs => rw [hc] at hc2; cases hc2

/-- Counterexample for C3 as stated: on the malformed pattern `[`, `run`
panics with zero workers spawned; no behavior returns the compile failure
as an error value. -/
theorem run_invalid_pattern_cex :
    RunBehavior demoCrypto demoCompile "[" [[seedA]] RunResult.panicked 0
    ∧ ¬ ∃ (e : String) (n : Nat),
        RunBehavior demoCrypto demoCompile "[" [[seedA]]
          (RunResult.err e) n := by
  constructor
  · exact RunBehavior.compileFail _ rfl
  · rintro ⟨e, n, hb⟩
    cases hb

/-- Witness for C3's amended statement. -/
theorem run_invalid_pattern_witness :
    demoCompile "[" =
      Except.error "regex parse error: unclosed character class"
    ∧ RunBehavior demoCrypto demoCompile "[" [] RunResult.panicked 0 :=
  ⟨rfl, (run_invalid_pattern demoCrypto demoCompile "[" [] _ rfl).1⟩

/-- C4 (amended): an invalid seed panics the worker inside `Account::new`:
that worker is permanently stuck (no further transition, no retry, its
attempt count frozen), and a state containing a panicked worker can never
reach the all-joined-normally completion, so the whole `run` cannot return
a value once a worker has panicked. -/
theorem invalid_seed_fatal (C : Crypto) (isMatch : String → Bool) :
    (∀ (sh : Shared) (w : Worker) (sh2 : Shared) (w2 : Worker),
        w.pc = WPC.panicked → ¬ WStep C isMatch sh w sh2 w2)
    ∧ (∀ (s s2 : SState), Reachable C isMatch s s2 →
        ∀ (i : Nat) (h : i < s.workers.length),
          (s.workers.get ⟨i, h⟩).pc = WPC.panicked →
          ∃ h2 : i < s2.workers.length,
            (s2.workers.get ⟨i, h2⟩).pc = WPC.panicked
            ∧ (s2.workers.get ⟨i, h2⟩).attempted =
                (s.workers.get ⟨i, h⟩).attempted
            ∧ ¬ AllDone s2) := by
  constructor
  · intro sh w sh2 w2 hpc hs
    cases hs <;> simp_all
  · intro s s2 hr i h hp
    obtain ⟨h2, hp2, hat2⟩ := panicked_reach hr i h hp
    refine ⟨h2, hp2, hat2, ?_⟩
    intro hd
    have hdone := hd _ (List.get_mem s2.workers i h2)
    rw [hp2] at hdone
    cases hdone

/-- Counterexample for C4 as stated: with the invalid all-zero seed the
worker reaches `panicked`; the join loop then panics, so the failure aborts
the whole `run` rather than being retried by the worker — indeed no
transition at all exists for the panicked worker. -/
theorem invalid_seed_cex :
    Reachable demoCrypto demoMatcher (initState [[zeroSeed]]) c4s4
    ∧ JoinPanics c4s4
    ∧ RunBehavior demoCrypto demoCompile "x" [[zeroSeed]]
        RunResult.panicked 1
    ∧ ¬ ∃ (sh2 : Shared) (w2 : Worker),
        WStep demoCrypto demoMatcher c1sh3 c4w4 sh2 w2 := by
  refine ⟨c4reach, c4joins,
    RunBehavior.joinPanic demoMatcher c4s4 rfl c4reach c4joins, ?_⟩
  rintro ⟨sh2, w2, hw⟩
  cases hw <;> simp_all [c4w4]

/-- Witness for C4's amended statement at the concrete panicked state. -/
theorem invalid_seed_fatal_witness :
    c4w4.pc = WPC.panicked
    ∧ ¬ WStep demoCrypto demoMatcher c1sh3 c4w4 c1sh3 c4w4
    ∧ ∃ h2 : 0 < c4s4.workers.length,
        (c4s4.workers.get ⟨0, h2⟩).pc = WPC.panicked
        ∧ (c4s4.workers.get ⟨0, h2⟩).attempted =
            (c4s4.workers.get ⟨0, c4lt⟩).attempted
        ∧ ¬ AllDone c4s4 :=
  ⟨rfl,
    (invalid_seed_fatal demoCrypto demoMatcher).1 c1sh3 c4w4 c1sh3 c4w4 rfl,
    (invalid_seed_fatal demoCrypto demoMatcher).2 c4s4 c4s4
      Relation.ReflTransGen.refl 0 c4lt rfl⟩

/-- C5: when the per-iteration `trying` check reads `false`, the worker
leaves the loop in that same iteration with the shared state untouched (no
counter increment), without constructing an account and without testing
(its whole local state is unchanged except the program counter); at a
reachable `check` point the local result is still `None`, and the ensuing
empty-handed `finish` step ends the worker without touching the slot. -/
theorem flag_false_stops (C : Crypto) (isMatch : String → Bool) :
    (∀ (sh : Shared) (w : Worker) (sh2 : Shared) (w2 : Worker),
        w.pc = WPC.check → sh.trying = false →
        WStep C isMatch sh w sh2 w2 →
        sh2 = sh ∧ w2 = { w with pc := WPC.finish })
    ∧ (∀ (tapes : List (List (List Nat))) (s : SState),
        Reachable C isMatch (initState tapes) s →
        ∀ w ∈ s.workers, w.pc = WPC.check → w.localResult = none)
    ∧ (∀ (sh : Shared) (w : Worker) (sh2 : Shared) (w2 : Worker),
        w.pc = WPC.finish → w.localResult = none →
        WStep C isMatch sh w sh2 w2 →
        sh2 = sh ∧ w2 = { w with pc := WPC.done }) := by
  refine ⟨?_, ?_, ?_⟩
  · intro sh w sh2 w2 hpc htr hs
    cases hs <;> simp_all
  · intro tapes s hr w hwm hpc
    have hinv := sinv_reachable hr (sinv_init isMatch tapes)
    have hw := hinv.2.2.2.2 w hwm
    exact hw.2.1 (by rw [hpc]; rfl)
  · intro sh w sh2 w2 hpc hlr hs
    cases hs <;> simp_all

/-- Witness for C5 at the concrete parked worker of the two-worker run. -/
theorem flag_false_stops_witness :
    (c1sh6 = c1sh6 ∧ c5b2 = { c2b1 with pc := WPC.finish })
    ∧ c2b1.localResult = none
    ∧ (c1sh6 = c1sh6 ∧ c5b3 = { c5b2 with pc := WPC.done }) :=
  ⟨(flag_false_stops demoCrypto demoMatcher).1 c1sh6 c2b1 c1sh6 c5b2 rfl rfl
      c5stepA,
    (flag_false_stops demoCrypto demoMatcher).2.1 [[seedA], [seedB]] c5s7
      c5reach c2b1 (by simp [c5s7]) rfl,
    (flag_false_stops demoCrypto demoMatcher).2.2 c1sh6 c5b2 c1sh6 c5b3 rfl
      rfl c5stepB⟩

/-- C6: the shared attempt counter never decreases; in every reachable
state it equals the sum of the workers' attempt counts (no double counting,
no lost increments); and at a successful completion it is at least 1 and
equals the total number of candidates actually constructed and tested
across all workers. -/
theorem attempt_counter_correct (C : Crypto) (isMatch : String → Bool)
    (tapes : List (List (List Nat))) :
    (∀ s s2 : SState, SStep C isMatch s s2 →
        s.shared.tries ≤ s2.shared.tries)
    ∧ (∀ s : SState, Reachable C isMatch (initState tapes) s →
        s.shared.tries = attemptedSum s.workers)
    ∧ (∀ (s : SState) (a : Account),
        Reachable C isMatch (initState tapes) s → AllDone s →
        s.shared.slot = some a →
        1 ≤ s.shared.tries ∧ s.shared.tries = testedSum s.workers) := by
  refine ⟨?_, ?_, ?_⟩
  · intro s s2 hstep
    cases hstep with
    | mk i h sh2 w2 hw => exact wstep_tries_mono hw
  · intro s hr
    exact (sinv_reachable hr (sinv_init isMatch tapes)).2.1
  · intro s a hr hd hs
    have hinv := sinv_reachable hr (sinv_init isMatch tapes)
    refine ⟨hinv.2.2.2.1 (by rw [hs]; rfl), ?_⟩
    rw [hinv.2.1]
    exact attemptedSum_eq_testedSum_of_done s.workers hinv.2.2.2.2 hd

/-- Witness for C6 along the concrete one-worker run. -/
theorem attempt_counter_correct_witness :
    c1s0.shared.tries ≤ c1s1.shared.tries
    ∧ c1s7.shared.tries = attemptedSum c1s7.workers
    ∧ (1 ≤ c1s7.shared.tries
        ∧ c1s7.shared.tries = testedSum c1s7.workers) :=
  ⟨(attempt_counter_correct demoCrypto demoMatcher [[seedA]]).1 c1s0 c1s1
      c1step1,
    (attempt_counter_correct demoCrypto demoMatcher [[seedA]]).2.1 c1s7
      c1reach,
    (attempt_counter_correct demoCrypto demoMatcher [[seedA]]).2.2 c1s7
      acctA c1reach c1alldone rfl⟩

/-- C7: under the documented interface facts for the external collaborators
(65-byte uncompressed serialization on a 32-byte seed, 32-byte digest, byte
values below 256), the three renderings of an account built from a valid
32-byte seed are `0x`-prefixed lowercase hexadecimal of lengths 66, 130 and
42. -/
theorem account_hex_lengths (C : Crypto) (seed : List Nat)
    (hlen : seed.length = 32)
    (hsb : ∀ b ∈ seed, b < 256)
    (hser : (C.serializeUncompressed seed).length = 65)
    (hserb : ∀ b ∈ C.serializeUncompressed seed, b < 256)
    (hkec : (C.keccak ((C.serializeUncompressed seed).drop 1)).length = 32)
    (hkecb : ∀ b ∈ C.keccak ((C.serializeUncompressed seed).drop 1),
      b < 256) :
    ((Account.new C seed).priv_key_as_hex.length = 66
      ∧ IsLowerHexString (Account.new C seed).priv_key_as_hex)
    ∧ ((Account.new C seed).pub_key_as_hex.length = 130
      ∧ IsLowerHexString (Account.new C seed).pub_key_as_hex)
    ∧ ((Account.new C seed).address_as_hex.length = 42
      ∧ IsLowerHexString (Account.new C seed).address_as_hex) := by
  refine ⟨⟨?_, ?_⟩, ⟨?_, ?_⟩, ⟨?_, ?_⟩⟩
  · show (byte_array_to_hex_prefixed seed).length = 66
    rw [length_byte_array_to_hex_prefixed, hlen]
  · exact isLowerHex_prefixed hsb
  · show (byte_array_to_hex_prefixed
      ((C.serializeUncompressed seed).drop 1)).length = 130
    rw [length_byte_array_to_hex_prefixed, List.length_drop, hser]
  · exact isLowerHex_prefixed
      (fun b hb => hserb b (List.mem_of_mem_drop hb))
  · show (byte_array_to_hex_prefixed
      ((C.keccak ((C.serializeUncompressed seed).drop 1)).drop 12)).length
        = 42
    rw [length_byte_array_to_hex_prefixed, List.length_drop, hkec]
  · exact isLowerHex_prefixed
      (fun b hb => hkecb b (List.mem_of_mem_drop hb))

/-- Witness for C7 at the concrete crypto stand-in and `seedA`. -/
theorem account_hex_lengths_witness :
    seedA.length = 32
    ∧ ((acctA.priv_key_as_hex.length = 66
        ∧ IsLowerHexString acctA.priv_key_as_hex)
      ∧ (acctA.pub_key_as_hex.length = 130
        ∧ IsLowerHexString acctA.pub_key_as_hex)
      ∧ (acctA.address_as_hex.length = 42
        ∧ IsLowerHexString acctA.address_as_hex)) :=
  ⟨by decide,
    account_hex_lengths demoCrypto seedA (by decide) (by decide)
      (by decide) (by decide) (by decide) (by decide)⟩

/-- C8: account derivation is deterministic — building twice from the same
seed bytes yields the same account, field by field. -/
theorem account_derivation_deterministic (C : Crypto)
    (s1 s2 : List Nat) (h : s1 = s2) :
    Account.new C s1 = Account.new C s2
    ∧ (Account.new C s1).priv_key = (Account.new C s2).priv_key
    ∧ (Account.new C s1).pub_key = (Account.new C s2).pub_key
    ∧ (Account.new C s1).address = (Account.new C s2).address := by
  subst h
  exact ⟨rfl, rfl, rfl, rfl⟩

/-- Witness for C8. -/
theorem account_derivation_deterministic_witness :
    seedA = seedA
    ∧ Account.new demoCrypto seedA = Account.new demoCrypto seedA :=
  ⟨rfl, (account_derivation_deterministic demoCrypto seedA seedA rfl).1⟩

/-- C9: the stored private key is exactly the seed bytes; the public key is
the uncompressed serialization with the leading prefix byte stripped; the
address is the trailing 20 bytes (drop 12 of the 32-byte digest) of the
one-way hash of that public key. -/
theorem account_fields_derivation (C : Crypto) (seed : List Nat)
    (hkec : (C.keccak ((C.serializeUncompressed seed).drop 1)).length
      = 32) :
    (Account.new C seed).priv_key = seed
    ∧ (Account.new C seed).pub_key = (C.serializeUncompressed seed).drop 1
    ∧ (Account.new C seed).address =
        (C.keccak ((Account.new C seed).pub_key)).drop 12
    ∧ (Account.new C seed).address.length = 20
    ∧ (Account.new C seed).address =
        (C.keccak ((Account.new C seed).pub_key)).drop
          ((C.keccak ((Account.new C seed).pub_key)).length - 20) := by
  refine ⟨rfl, rfl, rfl, ?_, ?_⟩
  · show ((C.keccak ((C.serializeUncompressed seed).drop 1)).drop
      12).length = 20
    rw [List.length_drop, hkec]
  · show (C.keccak ((C.serializeUncompressed seed).drop 1)).drop 12 =
      (C.keccak ((C.serializeUncompressed seed).drop 1)).drop
        ((C.keccak ((C.serializeUncompressed seed).drop 1)).length - 20)
    rw [hkec]

/-- Witness for C9 at the concrete crypto stand-in and `seedA`. -/
theorem account_fields_derivation_witness :
    (demoCrypto.keccak
      ((demoCrypto.serializeUncompressed seedA).drop 1)).length = 32
    ∧ acctA.priv_key = seedA
    ∧ acctA.address.length = 20 :=
  ⟨by decide,
    (account_fields_derivation demoCrypto seedA (by decide)).1,
    (account_fields_derivation demoCrypto seedA (by decide)).2.2.2.1⟩

/-- C10: called with worker count 0, `run` spawns no workers, the shared
state never changes (the slot stays empty), and the final
`take().unwrap()` panics, so `run` never returns any value. -/
theorem run_zero_workers (C : Crypto)
    (compile : String → Except String (String → Bool)) (search : String)
    (m : String → Bool) (hc : compile search = Except.ok m) :
    RunBehavior C compile search [] RunResult.panicked 0
    ∧ (∀ s : SState, Reachable C m (initState []) s →
        s = initState [] ∧ s.shared.slot = none)
    ∧ (∀ (r : RunResult) (n : Nat),
        RunBehavior C compile search [] r n → r = RunResult.panicked) := by
  have hstuck : ∀ s : SState, Reachable C m (initState []) s →
      s = initState [] := by
    intro s hr
    induction hr with
    | refl => rfl
    | tail hr2 hstep ih =>
        rw [ih] at hstep
        cases hstep with
        | mk i h sh2 w2 hw => simp [initState] at h
  have hempty : AllDone (initState []) := by
    intro w hw
    cases hw
  refine ⟨?_, ?_, ?_⟩
  · exact RunBehavior.emptyUnwrap m (initState []) hc
      Relation.ReflTransGen.refl hempty rfl
  · intro s hr
    refine ⟨hstuck s hr, ?_⟩
    rw [hstuck s hr]
    rfl
  · intro r n hb
    cases hb with
    | compileFail e2 hc2 => rfl
    | joinPanic m2 s hc2 hr hj => rfl
    | foundOk m2 s a hc2 hr hd hs =>
        rw [hc] at hc2
        injection hc2 with hm
        subst hm
        rw [hstuck s hr] at hs
        cases hs
    | emptyUnwrap m2 s hc2 hr hd hs => rfl

/-- Witness for C10. -/
theorem run_zero_workers_witness :
    demoCompile "x" = Except.ok demoMatcher
    ∧ RunBehavior demoCrypto demoCompile "x" [] RunResult.panicked 0 :=
  ⟨rfl, (run_zero_workers demoCrypto demoCompile "x" demoMatcher rfl).1⟩

end EthFabulous
